import Mathlib

/-!
Verification of the retrieval core of the q-chatbot repository
(`backend/retrieval/vector_search.py`), against its natural-language
specification.

Shallow embedding conventions:

* Python floats are modelled as exact rationals (`ℚ`); an embedding vector
  (`List[float]`) is a `List ℚ`.
* Remote embedding providers (OpenAI, Cohere) and the local
  SentenceTransformer models are external to the repository; a call to one
  is modelled by an `Oracle` parameter giving the provider's response
  (a vector, or a raised exception).
* A Python function that can raise is modelled in `Except`; the exception
  value identifies which `raise` fired.
* FAISS's `IndexFlatIP` over L2-normalized vectors scores a document `u`
  against a query `q` by the inner product of the normalized vectors,
  `⟪u,q⟫ / (‖u‖·‖q‖)`.  The square root in the norms is irrational, so a
  score is represented exactly as a pair `Sim` of `num = ⟪u,q⟫` and
  `den2 = ‖u‖²·‖q‖²`, denoting the real value `num / √den2`.  The map
  `x ↦ sign x · x²` is strictly increasing on ℝ, so the rational key
  `num·|num| / den2` compares two scores exactly as the real values do.
-/

/-- Embedding vectors: Python `List[float]`, modelled with exact rationals. -/
abbrev Vec := List ℚ

/-- Dot product of two vectors (`zip`-style: extra coordinates are dropped,
as NumPy would reject them earlier anyway; all uses are same-length). -/
def dot (u v : Vec) : ℚ := (List.zipWith (· * ·) u v).sum

/-- Squared L2 norm of a vector. -/
def sqNorm (v : Vec) : ℚ := dot v v

/-- A similarity score `num / √den2` (see the file header).  `den2` is
positive in every score the model produces. -/
structure Sim where
  num : ℚ
  den2 : ℚ
deriving DecidableEq, Repr

/-- Order key of a score: `sign num · num² / den2`, the image of the real
value `num / √den2` under the strictly increasing map `x ↦ sign x · x²`.
Comparing keys compares the real score values exactly. -/
def Sim.key (s : Sim) : ℚ := s.num * |s.num| / s.den2

/-- The real value of the score lies in `[-1, 1]`: with `den2 > 0`,
`|num / √den2| ≤ 1 ↔ num² ≤ den2`. -/
def Sim.inUnitRange (s : Sim) : Prop := s.num ^ 2 ≤ s.den2 ∧ 0 < s.den2

/-- Exceptions that `EmbeddingGenerator.get_embedding` can raise. -/
inductive PyErr where
  /-- `raise ValueError(f"Model {model_name} not available")`. -/
  | valueError (msg : String)
  /-- Reading `self._hf_models`, an attribute `__init__` never creates. -/
  | attributeError (msg : String)
  /-- An exception raised inside the remote provider client. -/
  | providerError (msg : String)
deriving DecidableEq, Repr

/-- The `str(e)` of a raised exception. -/
def PyErr.str : PyErr → String
  | .valueError m => m
  | .attributeError m => m
  | .providerError m => m

/-- Provider kind stored in `EmbeddingGenerator.models` (the dict values
`"openai"`, `"cohere"`, `"hf"`). -/
inductive Provider where
  | openai
  | cohere
  | hf
deriving DecidableEq, Repr

/-- Behaviour of the external embedding backends: what
`openai.Embedding.create`, `cohere_client.embed` or
`SentenceTransformer.encode` would return for a given provider kind,
model name and input text. -/
def Oracle := Provider → String → String → Except PyErr Vec

/-- First-match association-list lookup, the dict read `d[k]` / `k in d`. -/
def dictFind (k : String) : List (String × α) → Option α
  | [] => none
  | p :: ps => if p.1 = k then some p.2 else dictFind k ps

/-- State of an `EmbeddingGenerator` object: the `models` dict
(model name ↦ provider kind) and the `_hf_models` attribute, which is
`none` while the attribute does not exist on the object. -/
structure EmbeddingGenerator where
  models : List (String × Provider)
  hf_models : Option (List (String × Unit))

/-- State after `EmbeddingGenerator.__init__`: `_initialize_models` fills
`self.models` (from which API keys are configured) and possibly
`self.cohere_client`, but no statement in the class ever creates the
`_hf_models` attribute. -/
def EmbeddingGenerator.mk0 (models : List (String × Provider)) : EmbeddingGenerator :=
  { models := models, hf_models := none }

/-- Embedding model dimensions, from `Settings.EMBEDDING_DIMENSIONS`
in `backend/config.py`. -/
def EMBEDDING_DIMENSIONS : List (String × ℕ) :=
  [("text-embedding-ada-002", 1536),
   ("BAAI/bge-large-en-v1.5", 1024),
   ("BAAI/bge-base-en-v1.5", 768),
   ("intfloat/e5-large-v2", 1024),
   ("intfloat/e5-base-v2", 768),
   ("sentence-transformers/all-MiniLM-L6-v2", 384),
   ("cohere-embed-v3", 1024)]

/-- `EmbeddingGenerator.get_dimension`:
`settings.EMBEDDING_DIMENSIONS.get(model_name, 1536)`. -/
def get_dimension (model_name : String) : ℕ :=
  (dictFind model_name EMBEDDING_DIMENSIONS).getD 1536

/-- `EmbeddingGenerator.get_embedding`.  Unknown model: raises
`ValueError` (re-raised by the `except` block).  Remote providers: the
provider response is returned as is (no validation of the input text or of
the response).  Local `hf` provider: the code first evaluates
`model_name not in self._hf_models`, reading an attribute that was never
assigned, so the call raises `AttributeError` before any model is used. -/
def get_embedding (gen : EmbeddingGenerator) (oracle : Oracle)
    (text : String) (model_name : String) : Except PyErr Vec :=
  match dictFind model_name gen.models with
  | none => .error (.valueError ("Model " ++ model_name ++ " not available"))
  | some .openai => oracle .openai model_name text
  | some .cohere => oracle .cohere model_name text
  | some .hf =>
    match gen.hf_models with
    | none => .error (.attributeError
        "EmbeddingGenerator object has no attribute _hf_models")
    | some _ => oracle .hf model_name text

/-- Insert `a` into `l`, before the first element `b` with `le a b`.
Used to model the exact top-k ordering FAISS produces. -/
def insOrd (le : α → α → Bool) (a : α) : List α → List α
  | [] => [a]
  | b :: bs => if le a b then a :: b :: bs else b :: insOrd le a bs

/-- Insertion sort by `le` (structural, hence computable in proofs). -/
def sortOrd (le : α → α → Bool) : List α → List α
  | [] => []
  | a :: as => insOrd le a (sortOrd le as)

/-- The exact value of `FLT_MAX` (`2^128 − 2^104`), as a rational. -/
def fltMax : ℚ := 340282346638528859811704183484516925440

/-- The score FAISS reports for a padding slot of an inner-product search
with fewer stored vectors than requested results: label `-1`, score the
neutral element `-FLT_MAX` of the result heap. -/
def padSim : Sim := ⟨-fltMax, 1⟩

/-- Score of one stored document vector `u` against the query `q` in the
`IndexFlatIP` built by `search_faiss`: both vectors pass through
`faiss.normalize_L2` (which leaves a zero vector unchanged — `fvec_renorm_L2`
only rescales when the squared norm is positive), and the index then takes
their inner product.  Value: `0` if either vector is zero, otherwise
`⟪u,q⟫ / √(‖u‖²·‖q‖²)`, represented exactly as a `Sim` pair. -/
def simOf (u q : Vec) : Sim :=
  if sqNorm u = 0 ∨ sqNorm q = 0 then ⟨0, 1⟩
  else ⟨dot u q, sqNorm u * sqNorm q⟩

/-- Comparison FAISS exposes on result slots `i, j`: larger score first;
on exactly equal scores the smaller stored index first. -/
def rankLE (sims : List Sim) (i j : ℕ) : Bool :=
  decide ((sims.getD j ⟨0, 1⟩).key < (sims.getD i ⟨0, 1⟩).key ∨
    ((sims.getD i ⟨0, 1⟩).key = (sims.getD j ⟨0, 1⟩).key ∧ i ≤ j))

/-- Result rows of `index.search(query, k)` on an `IndexFlatIP` holding
the normalized `embs`, as (label, score) pairs: the stored indices sorted
by decreasing score, truncated to `k`, padded to exactly `k` rows with
label `-1` and score `-FLT_MAX` when fewer than `k` vectors are stored. -/
def faissTopK (embs : List Vec) (qv : Vec) (k : ℕ) : List (Int × Sim) :=
  let sims := embs.map (fun v => simOf v qv)
  let ranked := sortOrd (rankLE sims) (List.range embs.length)
  (ranked.take k).map (fun i : ℕ => ((i : Int), sims.getD i ⟨0, 1⟩)) ++
    List.replicate (k - embs.length) ((-1 : Int), padSim)

/-- Exceptions a `VectorSearch` search can raise (all are caught, logged
and re-raised by the `except` blocks, so they escape to the caller). -/
inductive SearchErr where
  /-- An embedding call raised. -/
  | provider (e : PyErr)
  /-- Empty corpus: `np.array([])` is 1-dimensional, so
  `faiss.normalize_L2` fails on `x.shape[1]` with an `IndexError`. -/
  | emptyCorpusShape
  /-- `np.array` over rows of unequal lengths fails. -/
  | raggedEmbeddings
  /-- The `assert d == self.d` of `index.add` / `index.search`. -/
  | faissDimension
  /-- The `assert k > 0` of `index.search`. -/
  | faissAssertion
  /-- Python list subscript out of range. -/
  | indexError
  /-- pgvector refuses `<=>` between vectors of different dimensions. -/
  | dimensionMismatch
deriving DecidableEq, Repr

/-- The `str(e)` recorded when `compare_models` catches the exception. -/
def SearchErr.str : SearchErr → String
  | .provider e => e.str
  | .emptyCorpusShape => "tuple index out of range"
  | .raggedEmbeddings => "setting an array element with a sequence"
  | .faissDimension => "assert d == self.d"
  | .faissAssertion => "assert k > 0"
  | .indexError => "list index out of range"
  | .dimensionMismatch => "different vector dimensions"

/-- The embedding loop of `search_faiss`: one `get_embedding` call per
document, stopping at the first raised exception. -/
def embedAll (gen : EmbeddingGenerator) (oracle : Oracle)
    (model_name : String) : List String → Except PyErr (List Vec)
  | [] => .ok []
  | d :: ds =>
    match get_embedding gen oracle d model_name with
    | .error e => .error e
    | .ok v =>
      match embedAll gen oracle model_name ds with
      | .error e => .error e
      | .ok vs => .ok (v :: vs)

/-- Python list subscript `xs[i]`: negative indices count from the end;
out of range raises `IndexError`. -/
def pyIndex (xs : List String) (i : Int) : Except SearchErr String :=
  let j : Int := if i < 0 then i + (xs.length : Int) else i
  if 0 ≤ j ∧ j < (xs.length : Int) then .ok (xs.getD j.toNat "")
  else .error .indexError

/-- Total value of a successful Python subscript (used to state results). -/
def pyVal (xs : List String) (i : Int) : String :=
  xs.getD (if i < 0 then i + (xs.length : Int) else i).toNat ""

/-- One result dict of `search_faiss`:
`{"index": int(idx), "content": documents[idx], "similarity": float(similarity)}`. -/
structure Hit where
  index : Int
  content : String
  similarity : Sim
deriving DecidableEq, Repr

/-- The result loop of `search_faiss`: for each (score, label) row of the
FAISS result, keep it iff `idx < len(documents)` — FAISS padding labels are
`-1`, which passes this test and then reads `documents[-1]`, the last
document. -/
def collectHits (docs : List String) : List (Int × Sim) → Except SearchErr (List Hit)
  | [] => .ok []
  | p :: rest =>
    if p.1 < (docs.length : Int) then
      match pyIndex docs p.1 with
      | .error e => .error e
      | .ok c =>
        match collectHits docs rest with
        | .error e => .error e
        | .ok hs => .ok (⟨p.1, c, p.2⟩ :: hs)
    else collectHits docs rest

/-- `VectorSearch.search_faiss`. -/
def search_faiss (gen : EmbeddingGenerator) (oracle : Oracle)
    (documents : List String) (query : String) (model_name : String)
    (top_k : ℕ) : Except SearchErr (List Hit) :=
  match embedAll gen oracle model_name documents with
  | .error e => .error (.provider e)
  | .ok docEmbs =>
    let dimension := get_dimension model_name
    match docEmbs with
    | [] => .error .emptyCorpusShape
    | e0 :: rest =>
      if ¬ (e0 :: rest).all (fun e => e.length == e0.length) then
        .error .raggedEmbeddings
      else if e0.length ≠ dimension then .error .faissDimension
      else
        match get_embedding gen oracle query model_name with
        | .error e => .error (.provider e)
        | .ok qv =>
          if qv.length ≠ dimension then .error .faissDimension
          else if top_k = 0 then .error .faissAssertion
          else collectHits documents (faissTopK (e0 :: rest) qv top_k)

/-- One value of the dict `compare_models` returns: the FAISS hit list on
success, or the caught error entry `{"error": str(e)}`. -/
inductive MResult where
  | hits (hs : List Hit)
  | error (msg : String)
deriving DecidableEq, Repr

/-- Python dict assignment `d[k] = v`: overwrite in place if the key
exists, else append the pair at the end (dicts preserve insertion order). -/
def dictInsert (d : List (String × α)) (k : String) (v : α) : List (String × α) :=
  if (dictFind k d).isSome then
    d.map (fun p => if p.1 = k then (k, v) else p)
  else d ++ [(k, v)]

/-- Default model list of `compare_models` when `model_names is None`. -/
def default_model_names : List String :=
  ["text-embedding-ada-002", "BAAI/bge-base-en-v1.5",
   "sentence-transformers/all-MiniLM-L6-v2"]

/-- The entry `compare_models` computes for one requested model: if the
model is registered, run `search_faiss` with the default `top_k = 5` and
keep its hits; any exception it raises is caught and recorded as
`{"error": str(e)}`; an unregistered model gets the static error entry. -/
def model_entry (gen : EmbeddingGenerator) (oracle : Oracle)
    (documents : List String) (query : String) (model_name : String) : MResult :=
  if (dictFind model_name gen.models).isSome then
    match search_faiss gen oracle documents query model_name 5 with
    | .ok hs => .hits hs
    | .error e => .error e.str
  else .error ("Model " ++ model_name ++ " not available")

/-- `VectorSearch.compare_models`: one loop iteration per requested model,
the whole body of which sits in a `try/except` that converts any exception
into that model's error entry, so the loop itself never raises. -/
def compare_models (gen : EmbeddingGenerator) (oracle : Oracle)
    (documents : List String) (query : String)
    (model_names : Option (List String)) : List (String × MResult) :=
  (model_names.getD default_model_names).foldl
    (fun results m => dictInsert results m (model_entry gen oracle documents query m)) []

/-- A row of the `documents` table (`id, filename, content, embedding`),
with `embedding` nullable. -/
structure Row where
  id : String
  filename : String
  content : String
  embedding : Option Vec
deriving DecidableEq, Repr

/-- One result dict of `search_pgvector`. -/
structure PHit where
  id : String
  filename : String
  content : String
  similarity : Sim
deriving DecidableEq, Repr

/-- Order key of the pgvector cosine-distance operator
`embedding <=> query` (value `1 − cos`): the map `c ↦ 1 − (sign c · c²)`
is strictly decreasing in the cosine `c`, hence strictly increasing in the
distance `1 − c`, so comparing these rational keys compares distances
exactly. -/
def distKey (v qv : Vec) : ℚ := 1 - (simOf v qv).key

/-- `VectorSearch.search_pgvector`: embed the query, then run
`SELECT id, filename, content, 1 - (embedding <=> :q) AS similarity FROM
documents WHERE embedding IS NOT NULL ORDER BY embedding <=> :q LIMIT k`.
Rows with a NULL embedding are filtered out by the `WHERE`; pgvector
raises an error if `<=>` is applied to vectors of different dimensions
(the re-raised exception, `dimensionMismatch` here); otherwise rows come
back by increasing cosine distance — equivalently decreasing cosine
similarity — truncated by `LIMIT`, and the reported similarity
`1 − (v <=> q) = cos(v, q)` is `simOf v qv`. -/
def search_pgvector (gen : EmbeddingGenerator) (oracle : Oracle)
    (db : List Row) (query : String) (model_name : String)
    (top_k : ℕ) : Except SearchErr (List PHit) :=
  match get_embedding gen oracle query model_name with
  | .error e => .error (.provider e)
  | .ok qv =>
    let elig := db.filterMap (fun r => r.embedding.map (fun v => (r, v)))
    if elig.any (fun rv => decide (rv.2.length ≠ qv.length)) then
      .error .dimensionMismatch
    else
      let ordered := sortOrd (fun a b => decide (distKey a.2 qv ≤ distKey b.2 qv)) elig
      .ok ((ordered.take top_k).map
        (fun rv => ⟨rv.1.id, rv.1.filename, rv.1.content, simOf rv.2 qv⟩))

/-- A 1536-dimensional all-ones vector (matches the registered dimension
of `text-embedding-ada-002`). -/
def onesVec : Vec := List.replicate 1536 1

/-- A 1536-dimensional zero vector: a degenerate embedding. -/
def zeroVec : Vec := List.replicate 1536 0

/-- A provider behaviour that answers every embedding request with the
all-ones vector. -/
def oracleOnes : Oracle := fun _ _ _ => .ok onesVec

/-- A provider behaviour that returns the zero vector for the text
"zdoc" and the all-ones vector for everything else. -/
def oracleZ : Oracle :=
  fun _ _ text => .ok (if text = "zdoc" then zeroVec else onesVec)

/-- A provider behaviour that returns a fixed short vector. -/
def oraclePair : Oracle := fun _ _ _ => .ok [1, 0]

/-- Generator state with only `text-embedding-ada-002` registered
(only `OPENAI_API_KEY` configured). -/
def genAda : EmbeddingGenerator :=
  .mk0 [("text-embedding-ada-002", .openai)]

/-- Generator state with the HuggingFace models registered
(`HUGGINGFACE_API_KEY` configured). -/
def genHf : EmbeddingGenerator :=
  .mk0 [("BAAI/bge-large-en-v1.5", .hf), ("BAAI/bge-base-en-v1.5", .hf),
        ("intfloat/e5-large-v2", .hf), ("intfloat/e5-base-v2", .hf),
        ("sentence-transformers/all-MiniLM-L6-v2", .hf)]

/-- Generator state with no model registered (no API key configured). -/
def genNone : EmbeddingGenerator := .mk0 []

/-- A `documents` table row embedded at dimension 1536. -/
def rowOnes : Row := ⟨"id1", "file1", "content1", some onesVec⟩

/-- A `documents` table row embedded at a different dimension (2). -/
def rowShort : Row := ⟨"id2", "file2", "content2", some [1, 0]⟩

/-- A `documents` table row that was never embedded (NULL vector). -/
def rowNull : Row := ⟨"id3", "file3", "content3", none⟩

/-! Properties of the insertion sort used to model FAISS result ordering
and SQL `ORDER BY`. -/

theorem insOrd_perm (le : α → α → Bool) (a : α) (l : List α) :
    List.Perm (insOrd le a l) (a :: l) := by
  induction l with
  | nil => simp [insOrd]
  | cons b bs ih =>
    cases hab : le a b with
    | true => simp [insOrd, hab]
    | false =>
      have hrw : insOrd le a (b :: bs) = b :: insOrd le a bs := by
        simp [insOrd, hab]
      rw [hrw]
      exact (ih.cons b).trans (List.Perm.swap a b bs)

theorem sortOrd_perm (le : α → α → Bool) (l : List α) :
    List.Perm (sortOrd le l) l := by
  induction l with
  | nil => simp [sortOrd]
  | cons a as ih => exact (insOrd_perm le a (sortOrd le as)).trans (ih.cons a)

theorem insOrd_pairwise (le : α → α → Bool)
    (htot : ∀ x y, le x y = true ∨ le y x = true)
    (htrans : ∀ x y z, le x y = true → le y z = true → le x z = true)
    (a : α) : ∀ l : List α, l.Pairwise (fun x y => le x y = true) →
    (insOrd le a l).Pairwise (fun x y => le x y = true) := by
  intro l
  induction l with
  | nil => intro _; simp [insOrd]
  | cons b bs ih =>
    intro hl
    rw [List.pairwise_cons] at hl
    obtain ⟨hb, hbs⟩ := hl
    cases hab : le a b with
    | true =>
      have hrw : insOrd le a (b :: bs) = a :: b :: bs := by simp [insOrd, hab]
      rw [hrw, List.pairwise_cons]
      refine ⟨?_, ?_⟩
      · intro x hx
        rcases List.mem_cons.mp hx with rfl | hx
        · exact hab
        · exact htrans a b x hab (hb x hx)
      · rw [List.pairwise_cons]
        exact ⟨hb, hbs⟩
    | false =>
      have hrw : insOrd le a (b :: bs) = b :: insOrd le a bs := by
        simp [insOrd, hab]
      rw [hrw, List.pairwise_cons]
      refine ⟨?_, ih hbs⟩
      intro x hx
      rcases List.mem_cons.mp ((insOrd_perm le a bs).mem_iff.mp hx) with rfl | hx
      · rcases htot x b with h | h
        · rw [hab] at h
          exact absurd h (by simp)
        · exact h
      · exact hb x hx

theorem sortOrd_pairwise (le : α → α → Bool)
    (htot : ∀ x y, le x y = true ∨ le y x = true)
    (htrans : ∀ x y z, le x y = true → le y z = true → le x z = true)
    (l : List α) : (sortOrd le l).Pairwise (fun x y => le x y = true) := by
  induction l with
  | nil => simp [sortOrd]
  | cons a as ih => exact insOrd_pairwise le htot htrans a (sortOrd le as) ih

/-! Arithmetic facts about dot products, squared norms and scores. -/

theorem dot_nil_left (v : Vec) : dot [] v = 0 := rfl

theorem dot_nil_right (u : Vec) : dot u [] = 0 := by
  cases u <;> simp [dot]

theorem dot_cons (a b : ℚ) (u v : Vec) :
    dot (a :: u) (b :: v) = a * b + dot u v := by
  simp [dot]

theorem sqNorm_cons (a : ℚ) (v : Vec) :
    sqNorm (a :: v) = a * a + sqNorm v := by
  simp [sqNorm, dot_cons]

theorem sqNorm_nonneg (v : Vec) : 0 ≤ sqNorm v := by
  induction v with
  | nil => simp [sqNorm, dot]
  | cons a v ih =>
    rw [sqNorm_cons]
    nlinarith [mul_self_nonneg a]

theorem two_mul_dot_le (a b : ℚ) :
    ∀ (u v : Vec), 2 * (a * b) * dot u v ≤ a ^ 2 * sqNorm v + b ^ 2 * sqNorm u := by
  intro u
  induction u with
  | nil =>
    intro v
    rw [dot_nil_left]
    have h0 : sqNorm ([] : Vec) = 0 := rfl
    rw [h0]
    nlinarith [mul_nonneg (sq_nonneg a) (sqNorm_nonneg v)]
  | cons x u ih =>
    intro v
    cases v with
    | nil =>
      rw [dot_nil_right]
      have h0 : sqNorm ([] : Vec) = 0 := rfl
      rw [h0]
      nlinarith [mul_nonneg (sq_nonneg b) (sqNorm_nonneg (x :: u))]
    | cons y v =>
      rw [dot_cons, sqNorm_cons, sqNorm_cons]
      nlinarith [ih v, sq_nonneg (a * y - b * x)]

theorem dot_sq_le (u v : Vec) : dot u v ^ 2 ≤ sqNorm u * sqNorm v := by
  induction u generalizing v with
  | nil =>
    rw [dot_nil_left]
    have h0 : sqNorm ([] : Vec) = 0 := rfl
    rw [h0]
    nlinarith [sqNorm_nonneg v]
  | cons x u ih =>
    cases v with
    | nil =>
      rw [dot_nil_right]
      have h0 : sqNorm ([] : Vec) = 0 := rfl
      rw [h0]
      nlinarith [sqNorm_nonneg (x :: u)]
    | cons y v =>
      rw [dot_cons, sqNorm_cons, sqNorm_cons]
      nlinarith [ih v, two_mul_dot_le x y u v, sqNorm_nonneg u, sqNorm_nonneg v,
        sq_nonneg (x * y), mul_self_nonneg x, mul_self_nonneg y]

/-- Every score `search_faiss` produces for a stored document lies in
`[-1, 1]`: this is the Cauchy–Schwarz inequality (and `0 ∈ [-1, 1]` for
the degenerate zero-vector case). -/
theorem simOf_inUnitRange (u q : Vec) : (simOf u q).inUnitRange := by
  unfold simOf Sim.inUnitRange
  by_cases h : sqNorm u = 0 ∨ sqNorm q = 0
  · rw [if_pos h]
    norm_num
  · rw [if_neg h]
    push_neg at h
    refine ⟨dot_sq_le u q, ?_⟩
    have h1 := sqNorm_nonneg u
    have h2 := sqNorm_nonneg q
    exact mul_pos (lt_of_le_of_ne h1 (Ne.symm h.1)) (lt_of_le_of_ne h2 (Ne.symm h.2))

theorem dot_replicate (n : ℕ) (a b : ℚ) :
    dot (List.replicate n a) (List.replicate n b) = n * (a * b) := by
  induction n with
  | zero => simp [dot]
  | succ n ih =>
    rw [List.replicate_succ, List.replicate_succ, dot_cons, ih]
    push_cast
    ring

theorem sqNorm_replicate (n : ℕ) (a : ℚ) :
    sqNorm (List.replicate n a) = n * (a * a) := dot_replicate n a a

/-! Properties of the Python dict model. -/

theorem dictFind_map_overwrite_self (k : String) (v : α) :
    ∀ d : List (String × α), (dictFind k d).isSome →
    dictFind k (d.map (fun p => if p.1 = k then (k, v) else p)) = some v := by
  intro d
  induction d with
  | nil => intro h; simp [dictFind] at h
  | cons p ps ih =>
    intro h
    by_cases hp : p.1 = k
    · simp [dictFind, hp]
    · have h' : (dictFind k ps).isSome := by simpa [dictFind, hp] using h
      simp only [List.map_cons, if_neg hp, dictFind, hp, if_false]
      exact ih h'

theorem dictFind_map_overwrite_other (k m : String) (v : α) (hmk : m ≠ k) :
    ∀ d : List (String × α),
    dictFind m (d.map (fun p => if p.1 = k then (k, v) else p)) = dictFind m d := by
  intro d
  induction d with
  | nil => simp [dictFind]
  | cons p ps ih =>
    by_cases hp : p.1 = k
    · have hpm : ¬ p.1 = m := by rw [hp]; exact Ne.symm hmk
      simp only [List.map_cons, if_pos hp, dictFind, if_neg (Ne.symm hmk), if_neg hpm]
      exact ih
    · simp only [List.map_cons, if_neg hp, dictFind]
      by_cases hpm : p.1 = m
      · simp [hpm]
      · simp only [if_neg hpm]
        exact ih

theorem dictFind_append_of_none (m : String) (l : List (String × α)) :
    ∀ d : List (String × α), dictFind m d = none →
    dictFind m (d ++ l) = dictFind m l := by
  intro d
  induction d with
  | nil => intro _; simp
  | cons p ps ih =>
    intro h
    by_cases hp : p.1 = m
    · simp [dictFind, hp] at h
    · simp only [dictFind, if_neg hp] at h
      rw [List.cons_append]
      simp only [dictFind, if_neg hp]
      exact ih h

theorem dictFind_append_of_some (m : String) (l : List (String × α)) :
    ∀ (d : List (String × α)) (v : α), dictFind m d = some v →
    dictFind m (d ++ l) = some v := by
  intro d
  induction d with
  | nil => intro v h; simp [dictFind] at h
  | cons p ps ih =>
    intro v h
    by_cases hp : p.1 = m
    · simp only [dictFind, if_pos hp] at h
      simp only [List.cons_append, dictFind, if_pos hp]
      exact h
    · simp only [dictFind, if_neg hp] at h
      simp only [List.cons_append, dictFind, if_neg hp]
      exact ih v h

theorem dictInsert_find_self (d : List (String × α)) (k : String) (v : α) :
    dictFind k (dictInsert d k v) = some v := by
  unfold dictInsert
  by_cases h : (dictFind k d).isSome
  · rw [if_pos h]
    exact dictFind_map_overwrite_self k v d h
  · rw [if_neg h]
    have hnone : dictFind k d = none := by
      cases hd : dictFind k d
      · rfl
      · rw [hd] at h; simp at h
    rw [dictFind_append_of_none k _ d hnone]
    simp [dictFind]

theorem dictInsert_find_other (d : List (String × α)) (k m : String) (v : α)
    (hmk : m ≠ k) : dictFind m (dictInsert d k v) = dictFind m d := by
  unfold dictInsert
  by_cases h : (dictFind k d).isSome
  · rw [if_pos h]
    exact dictFind_map_overwrite_other k m v hmk d
  · rw [if_neg h]
    cases hd : dictFind m d with
    | none =>
      rw [dictFind_append_of_none m _ d hd]
      simp [dictFind, Ne.symm hmk]
    | some w => exact dictFind_append_of_some m _ d w hd

theorem dictInsert_of_not_found (d : List (String × α)) (k : String) (v : α)
    (h : dictFind k d = none) : dictInsert d k v = d ++ [(k, v)] := by
  unfold dictInsert
  rw [h]
  rfl

/-! Properties of the per-model loop of `compare_models`. -/

theorem foldl_dictInsert_find_not_mem (entry : String → α) :
    ∀ (names : List String) (acc : List (String × α)) (m : String), m ∉ names →
    dictFind m (names.foldl (fun res n => dictInsert res n (entry n)) acc) =
      dictFind m acc := by
  intro names
  induction names with
  | nil => intro acc m _; rfl
  | cons n ns ih =>
    intro acc m hm
    have hmn : m ≠ n := fun h => hm (h ▸ List.mem_cons_self n ns)
    have hmns : m ∉ ns := fun h => hm (List.mem_cons_of_mem n h)
    rw [List.foldl_cons, ih _ m hmns, dictInsert_find_other _ _ _ _ hmn]

theorem foldl_dictInsert_find_mem (entry : String → α) :
    ∀ (names : List String) (acc : List (String × α)) (m : String), m ∈ names →
    dictFind m (names.foldl (fun res n => dictInsert res n (entry n)) acc) =
      some (entry m) := by
  intro names
  induction names with
  | nil => intro acc m hm; simp at hm
  | cons n ns ih =>
    intro acc m hm
    rw [List.foldl_cons]
    by_cases hmns : m ∈ ns
    · exact ih _ m hmns
    · have hmn : m = n := by
        rcases List.mem_cons.mp hm with h | h
        · exact h
        · exact absurd h hmns
      subst hmn
      rw [foldl_dictInsert_find_not_mem entry ns _ m hmns,
        dictInsert_find_self]

theorem foldl_dictInsert_keys (entry : String → α) :
    ∀ (names : List String) (acc : List (String × α)), names.Nodup →
    (∀ n ∈ names, dictFind n acc = none) →
    (names.foldl (fun res n => dictInsert res n (entry n)) acc).map Prod.fst =
      acc.map Prod.fst ++ names := by
  intro names
  induction names with
  | nil => intro acc _ _; simp
  | cons n ns ih =>
    intro acc hnd hfresh
    rw [List.nodup_cons] at hnd
    rw [List.foldl_cons,
      dictInsert_of_not_found acc n (entry n) (hfresh n (List.mem_cons_self n ns)),
      ih _ hnd.2 ?_]
    · simp
    · intro x hx
      have hxn : x ≠ n := fun h => hnd.1 (h ▸ hx)
      rw [dictFind_append_of_none x _ acc (hfresh x (List.mem_cons_of_mem n hx))]
      simp [dictFind, Ne.symm hxn]

/-- An empty corpus always makes `search_faiss` raise: `np.array([])` has
no second axis, so `faiss.normalize_L2` fails before any index is built. -/
theorem search_faiss_nil (gen : EmbeddingGenerator) (oracle : Oracle)
    (query model_name : String) (top_k : ℕ) :
    search_faiss gen oracle [] query model_name top_k =
      .error .emptyCorpusShape := rfl

/-! Claim theorems. -/

/-- C3: for every model registered with provider kind hf and every input
text, `EmbeddingGenerator.get_embedding` raises on every call, because
`self._hf_models` is read before it is ever assigned (`__init__` never
creates the attribute), so local-model embedding never returns a vector. -/
theorem C3_hf_embedding_always_raises (models : List (String × Provider))
    (oracle : Oracle) (text model_name : String)
    (hreg : dictFind model_name (EmbeddingGenerator.mk0 models).models =
      some Provider.hf) :
    get_embedding (EmbeddingGenerator.mk0 models) oracle text model_name =
      .error (.attributeError
        "EmbeddingGenerator object has no attribute _hf_models") := by
  unfold get_embedding
  rw [hreg]
  rfl

/-- Witness for C3 at a concrete registered hf model and input text. -/
theorem C3_witness :
    dictFind "BAAI/bge-base-en-v1.5" genHf.models = some Provider.hf ∧
    get_embedding genHf oracleOnes "any text" "BAAI/bge-base-en-v1.5" =
      .error (.attributeError
        "EmbeddingGenerator object has no attribute _hf_models") :=
  ⟨by simp [genHf, EmbeddingGenerator.mk0, dictFind],
   C3_hf_embedding_always_raises _ oracleOnes "any text" "BAAI/bge-base-en-v1.5"
     (by simp [genHf, EmbeddingGenerator.mk0, dictFind])⟩

/-- C10 counterexample: `get_embedding` has no empty-input check — with a
provider that answers the empty string, the call returns that vector
instead of failing with a provider error. -/
theorem C10_cex_empty_input_returns_vector :
    get_embedding genAda oraclePair "" "text-embedding-ada-002" = .ok [1, 0] := by
  simp [get_embedding, genAda, EmbeddingGenerator.mk0, dictFind, oraclePair]

/-- C10 (amended): `get_embedding` performs no validation of the input
text (in particular none for emptiness) and none of the provider response:
for a model registered with a remote provider kind it returns exactly what
the provider returns, for the empty input text as for any other. -/
theorem C10_amended_remote_embed_is_passthrough (gen : EmbeddingGenerator)
    (oracle : Oracle) (text model_name : String) (p : Provider)
    (hreg : dictFind model_name gen.models = some p)
    (hp : p = Provider.openai ∨ p = Provider.cohere) :
    get_embedding gen oracle text model_name = oracle p model_name text := by
  rcases hp with rfl | rfl <;>
    · unfold get_embedding
      rw [hreg]

/-- Witness for the amended C10 at empty input text. -/
theorem C10_witness :
    dictFind "text-embedding-ada-002" genAda.models = some Provider.openai ∧
    (Provider.openai = Provider.openai ∨ Provider.openai = Provider.cohere) ∧
    get_embedding genAda oraclePair "" "text-embedding-ada-002" =
      oraclePair Provider.openai "text-embedding-ada-002" "" :=
  ⟨by simp [genAda, EmbeddingGenerator.mk0, dictFind], Or.inl rfl,
   C10_amended_remote_embed_is_passthrough genAda oraclePair "" _ Provider.openai
     (by simp [genAda, EmbeddingGenerator.mk0, dictFind]) (Or.inl rfl)⟩

/-- C9 counterexample: with a duplicated model id in the caller's list the
returned mapping has a single key, so it does not have one key per listed
model id in caller order. -/
theorem C9_cex_duplicate_ids_collapse :
    (compare_models genNone oracleOnes ["doc"] "q" (some ["m", "m"])).map
      Prod.fst ≠ ["m", "m"] := by
  simp [compare_models, model_entry, dictInsert, dictFind, genNone,
    EmbeddingGenerator.mk0]

/-- C9 (amended): for every caller-supplied list of pairwise-distinct
model ids, the mapping `compare_models` returns has exactly one key per
listed id and its insertion order equals the caller list order (with a
duplicated id, the mapping keeps a single key at its first position). -/
theorem C9_amended_distinct_ids_keys_in_order (gen : EmbeddingGenerator)
    (oracle : Oracle) (documents : List String) (query : String)
    (names : List String) (hnd : names.Nodup) :
    (compare_models gen oracle documents query (some names)).map Prod.fst =
      names := by
  have h := foldl_dictInsert_keys (model_entry gen oracle documents query)
    names [] hnd (fun n _ => rfl)
  simpa [compare_models] using h

/-- Witness for the amended C9 on a two-element distinct model list. -/
theorem C9_witness :
    (["a", "b"] : List String).Nodup ∧
    (compare_models genNone oracleOnes [] "q" (some ["a", "b"])).map Prod.fst =
      ["a", "b"] :=
  ⟨by simp, C9_amended_distinct_ids_keys_in_order genNone oracleOnes [] "q"
    ["a", "b"] (by simp)⟩

/-- C6 counterexample: on an empty corpus, `compare_models` records an
error entry for a registered model (from the `IndexError` that
`faiss.normalize_L2` raises on the 1-dimensional `np.array([])`), not a
zero-hit entry. -/
theorem C6_cex_empty_corpus_error_not_zero_hits :
    compare_models genAda oracleOnes [] "q" (some ["text-embedding-ada-002"]) =
      [("text-embedding-ada-002", MResult.error "tuple index out of range")] ∧
    MResult.error "tuple index out of range" ≠ MResult.hits [] := by
  constructor
  · simp [compare_models, model_entry, dictInsert, dictFind, genAda,
      EmbeddingGenerator.mk0, search_faiss_nil, SearchErr.str]
  · simp

/-- C6 (amended): for every registered model and every query, running
`compare_models` on an empty corpus yields an error entry for that model
(`search_faiss` raises on the empty corpus before any search happens);
the call as a whole still returns normally rather than raising. -/
theorem C6_amended_empty_corpus_error_entry (gen : EmbeddingGenerator)
    (oracle : Oracle) (query model_name : String)
    (hreg : (dictFind model_name gen.models).isSome) :
    compare_models gen oracle [] query (some [model_name]) =
      [(model_name, MResult.error "tuple index out of range")] := by
  simp [compare_models, model_entry, hreg, search_faiss_nil, SearchErr.str,
    dictInsert, dictFind]

/-- Witness for the amended C6 at a concrete registered model. -/
theorem C6_witness :
    (dictFind "text-embedding-ada-002" genAda.models).isSome = true ∧
    compare_models genAda oracleOnes [] "q2" (some ["text-embedding-ada-002"]) =
      [("text-embedding-ada-002", MResult.error "tuple index out of range")] :=
  ⟨by simp [genAda, EmbeddingGenerator.mk0, dictFind],
   C6_amended_empty_corpus_error_entry genAda oracleOnes "q2"
     "text-embedding-ada-002" (by simp [genAda, EmbeddingGenerator.mk0, dictFind])⟩

/-- C1: for every corpus, query and list of model ids, `compare_models`
returns one entry per requested model; the entry of each model depends
only on that model (per-model isolation): the recorded value is its
`search_faiss` hits, or the caught error entry if the model is
unregistered or its search raised — and the loop itself never raises
(the model is a total function into the result dict). -/
theorem C1_compare_isolates_per_model (gen : EmbeddingGenerator)
    (oracle : Oracle) (documents : List String) (query : String)
    (names : List String) (m : String) (hm : m ∈ names) :
    dictFind m (compare_models gen oracle documents query (some names)) =
      some (model_entry gen oracle documents query m) := by
  simpa [compare_models] using
    foldl_dictInsert_find_mem (model_entry gen oracle documents query) names [] m hm

/-- Witness for C1: a mixed list of one registered and one unknown model. -/
theorem C1_witness :
    "no-such-model" ∈ ["text-embedding-ada-002", "no-such-model"] ∧
    dictFind "no-such-model"
        (compare_models genAda oracleOnes ["d"] "q"
          (some ["text-embedding-ada-002", "no-such-model"])) =
      some (model_entry genAda oracleOnes ["d"] "q" "no-such-model") :=
  ⟨by simp, C1_compare_isolates_per_model genAda oracleOnes ["d"] "q"
    ["text-embedding-ada-002", "no-such-model"] "no-such-model" (by simp)⟩

/-! Machinery for reasoning about `search_faiss`. -/

theorem embedAll_ok (gen : EmbeddingGenerator) (oracle : Oracle)
    (model_name : String) (f : String → Vec) :
    ∀ ds : List String,
    (∀ d ∈ ds, get_embedding gen oracle d model_name = .ok (f d)) →
    embedAll gen oracle model_name ds = .ok (ds.map f) := by
  intro ds
  induction ds with
  | nil => intro _; rfl
  | cons d ds ih =>
    intro h
    unfold embedAll
    rw [h d (List.mem_cons_self d ds),
      ih (fun x hx => h x (List.mem_cons_of_mem d hx))]
    rfl

theorem pyIndex_nonneg (xs : List String) (i : Int) (h0 : 0 ≤ i)
    (hlt : i < (xs.length : Int)) : pyIndex xs i = .ok (pyVal xs i) := by
  unfold pyIndex pyVal
  rw [if_neg (not_lt.mpr h0), if_pos ⟨h0, hlt⟩]

theorem pyIndex_neg_one (xs : List String) (h : 1 ≤ xs.length) :
    pyIndex xs (-1) = .ok (pyVal xs (-1)) := by
  unfold pyIndex pyVal
  have hneg : (-1 : Int) < 0 := by norm_num
  have h0 : (0 : Int) ≤ -1 + (xs.length : Int) := by omega
  have h1 : -1 + (xs.length : Int) < (xs.length : Int) := by omega
  rw [if_pos hneg, if_pos ⟨h0, h1⟩]

theorem collectHits_ok (docs : List String) :
    ∀ pairs : List (Int × Sim),
    (∀ p ∈ pairs, (0 ≤ p.1 ∧ p.1 < (docs.length : Int)) ∨
      (p.1 = -1 ∧ 1 ≤ docs.length)) →
    collectHits docs pairs =
      .ok (pairs.map (fun p => ⟨p.1, pyVal docs p.1, p.2⟩)) := by
  intro pairs
  induction pairs with
  | nil => intro _; rfl
  | cons p rest ih =>
    intro h
    have hp := h p (List.mem_cons_self p rest)
    have hrest := ih (fun x hx => h x (List.mem_cons_of_mem p hx))
    have hlt : p.1 < (docs.length : Int) := by
      rcases hp with ⟨_, hlt⟩ | ⟨heq, hlen⟩
      · exact hlt
      · rw [heq]; omega
    have hidx : pyIndex docs p.1 = .ok (pyVal docs p.1) := by
      rcases hp with ⟨h0, hlt2⟩ | ⟨heq, hlen⟩
      · exact pyIndex_nonneg docs p.1 h0 hlt2
      · rw [heq]; exact pyIndex_neg_one docs hlen
    unfold collectHits
    rw [if_pos hlt, hidx, hrest]
    rfl

theorem rankLE_total (sims : List Sim) (i j : ℕ) :
    rankLE sims i j = true ∨ rankLE sims j i = true := by
  unfold rankLE
  simp only [decide_eq_true_eq]
  rcases lt_trichotomy (sims.getD i ⟨0, 1⟩).key (sims.getD j ⟨0, 1⟩).key with h | h | h
  · right; left; exact h
  · rcases le_total i j with hij | hij
    · left; right; exact ⟨h, hij⟩
    · right; right; exact ⟨h.symm, hij⟩
  · left; left; exact h

theorem rankLE_trans (sims : List Sim) (i j k : ℕ)
    (h1 : rankLE sims i j = true) (h2 : rankLE sims j k = true) :
    rankLE sims i k = true := by
  unfold rankLE at h1 h2 ⊢
  simp only [decide_eq_true_eq] at h1 h2 ⊢
  rcases h1 with h1 | ⟨h1e, h1le⟩ <;> rcases h2 with h2 | ⟨h2e, h2le⟩
  · left; exact lt_trans h2 h1
  · left; rw [← h2e]; exact h1
  · left; rw [h1e]; exact h2
  · right; exact ⟨h1e.trans h2e, le_trans h1le h2le⟩

/-- A weaker reading of `rankLE`: scores are non-increasing. -/
theorem rankLE_key_le (sims : List Sim) (i j : ℕ) (h : rankLE sims i j = true) :
    (sims.getD j ⟨0, 1⟩).key ≤ (sims.getD i ⟨0, 1⟩).key := by
  unfold rankLE at h
  simp only [decide_eq_true_eq] at h
  rcases h with h | ⟨he, _⟩
  · exact le_of_lt h
  · exact le_of_eq he.symm

theorem getD_map_simOf (l : List Vec) (qv : Vec) (i : ℕ) (hi : i < l.length) :
    (l.map (fun v => simOf v qv)).getD i ⟨0, 1⟩ = simOf (l.getD i []) qv := by
  induction l generalizing i with
  | nil => simp at hi
  | cons v vs ih =>
    cases i with
    | zero => rfl
    | succ n =>
      have hn : n < vs.length := by simpa using hi
      simpa [List.getD_cons_succ] using ih n hn

/-- With `k` at most the number of stored vectors, a FAISS search returns
no padding rows. -/
theorem faissTopK_of_le (embs : List Vec) (qv : Vec) (k : ℕ)
    (hk : k ≤ embs.length) :
    faissTopK embs qv k =
      ((sortOrd (rankLE (embs.map (fun v => simOf v qv)))
          (List.range embs.length)).take k).map
        (fun i : ℕ => ((i : Int), (embs.map (fun v => simOf v qv)).getD i ⟨0, 1⟩)) := by
  unfold faissTopK
  rw [Nat.sub_eq_zero_of_le hk]
  simp

theorem faissTopK_length (embs : List Vec) (qv : Vec) (k : ℕ) :
    (faissTopK embs qv k).length = k := by
  unfold faissTopK
  have hlen : (sortOrd (rankLE (embs.map (fun v => simOf v qv)))
      (List.range embs.length)).length = embs.length := by
    rw [(sortOrd_perm _ _).length_eq, List.length_range]
  rw [List.length_append, List.length_map, List.length_take, hlen,
    List.length_replicate]
  omega

theorem faissTopK_mem (embs : List Vec) (qv : Vec) (k : ℕ) (p : Int × Sim)
    (hp : p ∈ faissTopK embs qv k) :
    (∃ i : ℕ, i < embs.length ∧
      p = ((i : Int), (embs.map (fun v => simOf v qv)).getD i ⟨0, 1⟩)) ∨
    p = ((-1 : Int), padSim) := by
  unfold faissTopK at hp
  rcases List.mem_append.mp hp with hp | hp
  · obtain ⟨i, hi, rfl⟩ := List.mem_map.mp hp
    have hir : i ∈ List.range embs.length :=
      (sortOrd_perm _ _).mem_iff.mp (List.mem_of_mem_take hi)
    exact Or.inl ⟨i, List.mem_range.mp hir, rfl⟩
  · exact Or.inr (List.eq_of_mem_replicate hp)

/-- Closed form of a successful `search_faiss` call: every document and the
query embed successfully at the registered dimension, the corpus is
non-empty and `top_k` is positive, so the result is exactly the FAISS
top-k rows pushed through the Python result loop. -/
theorem search_faiss_ok (gen : EmbeddingGenerator) (oracle : Oracle)
    (documents : List String) (query model_name : String) (top_k : ℕ)
    (f : String → Vec) (qv : Vec)
    (hne : documents ≠ [])
    (hemb : ∀ d ∈ documents, get_embedding gen oracle d model_name = .ok (f d))
    (hlen : ∀ d ∈ documents, (f d).length = get_dimension model_name)
    (hq : get_embedding gen oracle query model_name = .ok qv)
    (hqlen : qv.length = get_dimension model_name)
    (hk : top_k ≠ 0) :
    search_faiss gen oracle documents query model_name top_k =
      .ok ((faissTopK (documents.map f) qv top_k).map
        (fun p => ⟨p.1, pyVal documents p.1, p.2⟩)) := by
  obtain ⟨d0, ds, rfl⟩ : ∃ d0 ds, documents = d0 :: ds := by
    cases documents with
    | nil => exact absurd rfl hne
    | cons a as => exact ⟨a, as, rfl⟩
  have hd0 : (f d0).length = get_dimension model_name :=
    hlen d0 (List.mem_cons_self d0 ds)
  have hall : ((d0 :: ds).map f).all
      (fun e => e.length == (f d0).length) = true := by
    rw [List.all_eq_true]
    intro e he
    rcases List.mem_map.mp he with ⟨d, hd, rfl⟩
    have := hlen d hd
    rw [beq_iff_eq, this, hd0]
  unfold search_faiss
  rw [embedAll_ok gen oracle model_name f _ hemb]
  simp only [List.map_cons]
  rw [List.map_cons] at hall
  simp only [hall, not_true, if_neg, Bool.not_eq_true]
  rw [if_neg (by simp), if_neg (by rw [hd0]; simp)]
  simp only [hq]
  rw [if_neg (by rw [hqlen]; simp), if_neg hk]
  have hmem : ∀ p ∈ faissTopK (f d0 :: List.map f ds) qv top_k,
      (0 ≤ p.1 ∧ p.1 < (((d0 :: ds) : List String).length : Int)) ∨
      (p.1 = -1 ∧ 1 ≤ ((d0 :: ds) : List String).length) := by
    intro p hp
    rcases faissTopK_mem _ qv top_k p hp with ⟨i, hi, rfl⟩ | rfl
    · left
      refine ⟨Int.ofNat_nonneg i, ?_⟩
      simp only [List.length_cons, List.length_map] at hi ⊢
      omega
    · right
      exact ⟨rfl, by simp⟩
  rw [collectHits_ok (d0 :: ds) _ hmem, ← List.map_cons f d0 ds]

/-- The all-ones test vector has the dimension registered for
`text-embedding-ada-002`. -/
theorem onesVec_length_ada :
    onesVec.length = get_dimension "text-embedding-ada-002" := by
  unfold onesVec
  rw [List.length_replicate]
  simp [get_dimension, dictFind, EMBEDDING_DIMENSIONS]

/-- The zero-or-ones selector used in the degenerate-vector scenarios also
always produces vectors of the registered dimension. -/
theorem zsel_length_ada (d : String) :
    (if d = "zdoc" then zeroVec else onesVec).length =
      get_dimension "text-embedding-ada-002" := by
  by_cases hdz : d = "zdoc"
  · rw [if_pos hdz]
    unfold zeroVec
    rw [List.length_replicate]
    simp [get_dimension, dictFind, EMBEDDING_DIMENSIONS]
  · rw [if_neg hdz]
    exact onesVec_length_ada

theorem sqNorm_zeroVec : sqNorm zeroVec = 0 := by
  unfold zeroVec
  rw [sqNorm_replicate]
  simp

/-- C7: for every non-empty corpus, every positive `top_k` at most the
corpus size, and embeddings of the registered dimension, `search_faiss`
returns exactly `top_k` hits, every similarity lies in `[-1, 1]` (encoded
on the exact `Sim` pairs: `num² ≤ den2` with `den2 > 0`), and the hits are
sorted by non-increasing similarity (non-increasing order keys). -/
theorem C7_topk_count_range_sorted (gen : EmbeddingGenerator) (oracle : Oracle)
    (documents : List String) (query model_name : String) (top_k : ℕ)
    (f : String → Vec) (qv : Vec)
    (hne : documents ≠ [])
    (hk : top_k ≤ documents.length) (hk0 : top_k ≠ 0)
    (hemb : ∀ d ∈ documents, get_embedding gen oracle d model_name = .ok (f d))
    (hlen : ∀ d ∈ documents, (f d).length = get_dimension model_name)
    (hq : get_embedding gen oracle query model_name = .ok qv)
    (hqlen : qv.length = get_dimension model_name) :
    ∃ hits, search_faiss gen oracle documents query model_name top_k = .ok hits ∧
      hits.length = top_k ∧
      (∀ h ∈ hits, h.similarity.inUnitRange) ∧
      hits.Pairwise (fun a b => b.similarity.key ≤ a.similarity.key) := by
  have hk' : top_k ≤ (documents.map f).length := by rwa [List.length_map]
  have hTK := faissTopK_of_le (documents.map f) qv top_k hk'
  have hsorted := sortOrd_pairwise
    (rankLE ((documents.map f).map (fun v => simOf v qv)))
    (rankLE_total _) (rankLE_trans _) (List.range (documents.map f).length)
  refine ⟨_, search_faiss_ok gen oracle documents query model_name top_k f qv
      hne hemb hlen hq hqlen hk0, ?_, ?_, ?_⟩
  · rw [List.length_map, faissTopK_length]
  · intro h hh
    rw [hTK] at hh
    rcases List.mem_map.mp hh with ⟨p, hp, rfl⟩
    rcases List.mem_map.mp hp with ⟨i, hi, rfl⟩
    have hilt : i < (documents.map f).length := List.mem_range.mp
      ((sortOrd_perm _ _).mem_iff.mp (List.mem_of_mem_take hi))
    show Sim.inUnitRange
      (((documents.map f).map (fun v => simOf v qv)).getD i ⟨0, 1⟩)
    rw [getD_map_simOf _ qv i hilt]
    exact simOf_inUnitRange _ _
  · rw [hTK, List.map_map, List.pairwise_map]
    exact (List.Pairwise.sublist (List.take_sublist _ _) hsorted).imp
      (fun hab => rankLE_key_le _ _ _ hab)

/-- Witness for C7 on a two-document corpus with `top_k = 2`. -/
theorem C7_witness :
    (["w1", "w2"] : List String) ≠ [] ∧
    2 ≤ (["w1", "w2"] : List String).length ∧
    (∃ hits, search_faiss genAda oracleOnes ["w1", "w2"] "q"
        "text-embedding-ada-002" 2 = .ok hits ∧
      hits.length = 2 ∧
      (∀ h ∈ hits, h.similarity.inUnitRange) ∧
      hits.Pairwise (fun a b => b.similarity.key ≤ a.similarity.key)) :=
  ⟨by simp, by simp,
   C7_topk_count_range_sorted genAda oracleOnes ["w1", "w2"] "q"
     "text-embedding-ada-002" 2 (fun _ => onesVec) onesVec
     (by simp) (by simp) (by simp)
     (by intro d hd
         simp [get_embedding, genAda, EmbeddingGenerator.mk0, dictFind, oracleOnes])
     (fun d _ => onesVec_length_ada)
     (by simp [get_embedding, genAda, EmbeddingGenerator.mk0, dictFind, oracleOnes])
     onesVec_length_ada⟩

/-- C2: evaluation of `search_faiss` at a corpus smaller than `top_k`.
FAISS pads the result rows with label `-1` and score `-FLT_MAX`; the
guard `if idx < len(documents)` does not remove them (`-1 < 1`), and
`documents[-1]` resolves to the last document by Python negative
indexing.  A 1-document corpus with `top_k = 5` therefore yields 5 hits —
one real and four padding rows with invalid index `-1` — instead of the
single hit the specification promises. -/
theorem C2_eval_undersized_corpus_padding :
    search_faiss genAda oracleOnes ["doc0"] "q" "text-embedding-ada-002" 5 =
      .ok ({ index := 0, content := "doc0", similarity := simOf onesVec onesVec } ::
        List.replicate 4
          { index := -1, content := "doc0", similarity := padSim }) := by
  rw [search_faiss_ok genAda oracleOnes ["doc0"] "q" "text-embedding-ada-002" 5
    (fun _ => onesVec) onesVec (by simp)
    (by intro d hd
        simp [get_embedding, genAda, EmbeddingGenerator.mk0, dictFind, oracleOnes])
    (fun d _ => onesVec_length_ada)
    (by simp [get_embedding, genAda, EmbeddingGenerator.mk0, dictFind, oracleOnes])
    onesVec_length_ada
    (by norm_num)]
  rfl

/-- When the corpus fits in `top_k`, every document — including one whose
embedding is the zero vector — appears among the hits: the zero vector is
left unchanged by `faiss.normalize_L2`, stays in the index, and scores an
inner product of `0` against any query.  No warning channel exists in
`search_faiss`. -/
theorem search_faiss_zero_doc_mem (gen : EmbeddingGenerator) (oracle : Oracle)
    (documents : List String) (query model_name : String) (top_k : ℕ)
    (f : String → Vec) (qv : Vec) (i : ℕ)
    (hne : documents ≠ [])
    (hemb : ∀ d ∈ documents, get_embedding gen oracle d model_name = .ok (f d))
    (hlen : ∀ d ∈ documents, (f d).length = get_dimension model_name)
    (hq : get_embedding gen oracle query model_name = .ok qv)
    (hqlen : qv.length = get_dimension model_name)
    (hkn : documents.length ≤ top_k) (hk0 : top_k ≠ 0)
    (hi : i < documents.length)
    (hzero : sqNorm ((documents.map f).getD i []) = 0) :
    ∃ hits, search_faiss gen oracle documents query model_name top_k = .ok hits ∧
      ∃ h ∈ hits, h.index = (i : Int) ∧ h.similarity = ⟨0, 1⟩ := by
  refine ⟨_, search_faiss_ok gen oracle documents query model_name top_k f qv
      hne hemb hlen hq hqlen hk0, ?_⟩
  have hi' : i < (documents.map f).length := by rwa [List.length_map]
  have hranked : i ∈ sortOrd
      (rankLE ((documents.map f).map (fun v => simOf v qv)))
      (List.range (documents.map f).length) :=
    (sortOrd_perm _ _).mem_iff.mpr (List.mem_range.mpr hi')
  have hlenle : (sortOrd
      (rankLE ((documents.map f).map (fun v => simOf v qv)))
      (List.range (documents.map f).length)).length ≤ top_k := by
    rw [(sortOrd_perm _ _).length_eq, List.length_range, List.length_map]
    exact hkn
  have htake : i ∈ (sortOrd
      (rankLE ((documents.map f).map (fun v => simOf v qv)))
      (List.range (documents.map f).length)).take top_k := by
    rw [List.take_of_length_le hlenle]
    exact hranked
  have hpair : ((i : Int),
      ((documents.map f).map (fun v => simOf v qv)).getD i ⟨0, 1⟩) ∈
      faissTopK (documents.map f) qv top_k := by
    unfold faissTopK
    exact List.mem_append_left _ (List.mem_map_of_mem _ htake)
  refine ⟨_, List.mem_map_of_mem _ hpair, rfl, ?_⟩
  show ((documents.map f).map (fun v => simOf v qv)).getD i ⟨0, 1⟩ = ⟨0, 1⟩
  rw [getD_map_simOf _ qv i hi']
  unfold simOf
  rw [if_pos (Or.inl hzero)]

/-- C5 counterexample: a concrete corpus whose second document embeds to
the zero vector.  `search_faiss` does not exclude it: the returned hits
contain an entry for index 1 with similarity `0`, and no
`DegenerateVectorWarning` is surfaced (the function has no warning
channel at all). -/
theorem C5_cex_zero_vector_ranked :
    ∃ hits, search_faiss genAda oracleZ ["adoc", "zdoc"] "q"
        "text-embedding-ada-002" 5 = .ok hits ∧
      ∃ h ∈ hits, h.index = (1 : Int) ∧ h.similarity = ⟨0, 1⟩ :=
  search_faiss_zero_doc_mem genAda oracleZ ["adoc", "zdoc"] "q"
    "text-embedding-ada-002" 5
    (fun d => if d = "zdoc" then zeroVec else onesVec) onesVec 1
    (by simp)
    (by intro d hd
        simp [get_embedding, genAda, EmbeddingGenerator.mk0, dictFind, oracleZ])
    (fun d _ => zsel_length_ada d)
    (by simp [get_embedding, genAda, EmbeddingGenerator.mk0, dictFind, oracleZ])
    onesVec_length_ada
    (by simp) (by norm_num) (by simp)
    (by have h2 : ((["adoc", "zdoc"].map
          (fun d => if d = "zdoc" then zeroVec else onesVec)).getD 1 []) =
            zeroVec := by simp
        rw [h2, sqNorm_zeroVec])

/-- C5 (amended): `search_faiss` does not detect zero-norm embeddings and
does not exclude them from ranking, and it surfaces no warning:
`faiss.normalize_L2` leaves a zero vector unchanged, the document stays in
the index with inner-product score `0` against any query, and (whenever
`top_k` covers the corpus) it appears among the returned hits with
similarity `0`. -/
theorem C5_amended_zero_vector_not_excluded (gen : EmbeddingGenerator)
    (oracle : Oracle) (documents : List String) (query model_name : String)
    (top_k : ℕ) (f : String → Vec) (qv : Vec) (i : ℕ)
    (hne : documents ≠ [])
    (hemb : ∀ d ∈ documents, get_embedding gen oracle d model_name = .ok (f d))
    (hlen : ∀ d ∈ documents, (f d).length = get_dimension model_name)
    (hq : get_embedding gen oracle query model_name = .ok qv)
    (hqlen : qv.length = get_dimension model_name)
    (hkn : documents.length ≤ top_k) (hk0 : top_k ≠ 0)
    (hi : i < documents.length)
    (hzero : sqNorm ((documents.map f).getD i []) = 0) :
    ∃ hits, search_faiss gen oracle documents query model_name top_k = .ok hits ∧
      ∃ h ∈ hits, h.index = (i : Int) ∧ h.similarity = ⟨0, 1⟩ :=
  search_faiss_zero_doc_mem gen oracle documents query model_name top_k f qv i
    hne hemb hlen hq hqlen hkn hk0 hi hzero

/-- Witness for the amended C5 at a concrete two-document corpus. -/
theorem C5_witness :
    1 < (["da", "zdoc"] : List String).length ∧
    (["da", "zdoc"] : List String).length ≤ 5 ∧
    (∃ hits, search_faiss genAda oracleZ ["da", "zdoc"] "q2"
        "text-embedding-ada-002" 5 = .ok hits ∧
      ∃ h ∈ hits, h.index = (1 : Int) ∧ h.similarity = ⟨0, 1⟩) :=
  ⟨by simp, by simp,
   C5_amended_zero_vector_not_excluded genAda oracleZ ["da", "zdoc"] "q2"
     "text-embedding-ada-002" 5
     (fun d => if d = "zdoc" then zeroVec else onesVec) onesVec 1
     (by simp)
     (by intro d hd
         simp [get_embedding, genAda, EmbeddingGenerator.mk0, dictFind, oracleZ])
     (fun d _ => zsel_length_ada d)
     (by simp [get_embedding, genAda, EmbeddingGenerator.mk0, dictFind, oracleZ])
     onesVec_length_ada
     (by simp) (by norm_num) (by simp)
     (by have h2 : ((["da", "zdoc"].map
           (fun d => if d = "zdoc" then zeroVec else onesVec)).getD 1 []) =
             zeroVec := by simp
         rw [h2, sqNorm_zeroVec])⟩

/-- C4: if the query embedding's dimension disagrees with the dimension
the rows were stored under (the target model's registered dimension),
`search_pgvector` raises the dimension-mismatch error — pgvector refuses
`<=>` between vectors of different dimensions — and no ranked list is
returned, so rows of a different dimension are never compared against the
query.  At least one non-NULL row must exist for the operator to be
evaluated at all. -/
theorem C4_pgvector_dimension_mismatch (gen : EmbeddingGenerator)
    (oracle : Oracle) (db : List Row) (query model_name : String)
    (top_k : ℕ) (qv : Vec)
    (hq : get_embedding gen oracle query model_name = .ok qv)
    (hqdim : qv.length ≠ get_dimension model_name)
    (r : Row) (v : Vec) (hr : r ∈ db) (hv : r.embedding = some v)
    (hvdim : v.length = get_dimension model_name) :
    search_pgvector gen oracle db query model_name top_k =
      .error .dimensionMismatch := by
  have hmem : (r, v) ∈ db.filterMap
      (fun r => r.embedding.map (fun v => (r, v))) := by
    rw [List.mem_filterMap]
    exact ⟨r, hr, by rw [hv]; rfl⟩
  have hany : (db.filterMap (fun r => r.embedding.map (fun v => (r, v)))).any
      (fun rv => decide (rv.2.length ≠ qv.length)) = true := by
    rw [List.any_eq_true]
    refine ⟨(r, v), hmem, ?_⟩
    rw [decide_eq_true_eq, hvdim]
    exact fun h => hqdim h.symm
  unfold search_pgvector
  simp only [hq]
  rw [if_pos hany]

/-- Witness for C4: a store embedded at dimension 1536 queried with a
2-dimensional query embedding. -/
theorem C4_witness :
    ([1, 0] : Vec).length ≠ get_dimension "text-embedding-ada-002" ∧
    rowOnes.embedding = some onesVec ∧
    search_pgvector genAda oraclePair [rowOnes] "q" "text-embedding-ada-002" 5 =
      .error .dimensionMismatch :=
  ⟨by simp [get_dimension, dictFind, EMBEDDING_DIMENSIONS], rfl,
   C4_pgvector_dimension_mismatch genAda oraclePair [rowOnes] "q"
     "text-embedding-ada-002" 5 [1, 0]
     (by simp [get_embedding, genAda, EmbeddingGenerator.mk0, dictFind, oraclePair])
     (by simp [get_dimension, dictFind, EMBEDDING_DIMENSIONS])
     rowOnes onesVec (by simp) rfl onesVec_length_ada⟩

/-- C8: on a store whose non-NULL rows all match the query dimension,
`search_pgvector` succeeds; every returned hit carries the similarity
`1 − cosine_distance(row, query)` (the cosine score `simOf v qv`, whose
key satisfies `key = 1 − distKey`), only rows with a non-NULL embedding
are eligible, at most `top_k` hits come back, and hits are sorted by
ascending cosine distance, i.e. non-increasing similarity. -/
theorem C8_pgvector_ranking (gen : EmbeddingGenerator) (oracle : Oracle)
    (db : List Row) (query model_name : String) (top_k : ℕ) (qv : Vec)
    (hq : get_embedding gen oracle query model_name = .ok qv)
    (hdims : ∀ r ∈ db, ∀ v, r.embedding = some v → v.length = qv.length) :
    ∃ hits, search_pgvector gen oracle db query model_name top_k = .ok hits ∧
      hits.length ≤ top_k ∧
      (∀ h ∈ hits, ∃ r ∈ db, ∃ v, r.embedding = some v ∧
        h.similarity = simOf v qv ∧ h.content = r.content ∧
        h.similarity.key = 1 - distKey v qv) ∧
      hits.Pairwise (fun a b => b.similarity.key ≤ a.similarity.key) := by
  have hno : ¬ ((db.filterMap (fun r => r.embedding.map (fun v => (r, v)))).any
      (fun rv => decide (rv.2.length ≠ qv.length)) = true) := by
    rw [List.any_eq_true]
    rintro ⟨rv, hrv, hd⟩
    rw [decide_eq_true_eq] at hd
    rcases List.mem_filterMap.mp hrv with ⟨r, hr, hsome⟩
    rcases Option.map_eq_some'.mp hsome with ⟨v, hv, hpair⟩
    apply hd
    rw [← hpair]
    exact hdims r hr v hv
  have hrun : search_pgvector gen oracle db query model_name top_k =
      .ok (((sortOrd (fun a b => decide (distKey a.2 qv ≤ distKey b.2 qv))
          (db.filterMap (fun r => r.embedding.map (fun v => (r, v))))).take
            top_k).map
        (fun rv => ⟨rv.1.id, rv.1.filename, rv.1.content, simOf rv.2 qv⟩)) := by
    unfold search_pgvector
    simp only [hq]
    rw [if_neg hno]
  have hsorted := sortOrd_pairwise
    (fun a b : Row × Vec => decide (distKey a.2 qv ≤ distKey b.2 qv))
    (fun x y => by
      rcases le_total (distKey x.2 qv) (distKey y.2 qv) with h | h
      · exact Or.inl (decide_eq_true h)
      · exact Or.inr (decide_eq_true h))
    (fun x y z hxy hyz => decide_eq_true
      (le_trans (of_decide_eq_true hxy) (of_decide_eq_true hyz)))
    (db.filterMap (fun r => r.embedding.map (fun v => (r, v))))
  refine ⟨_, hrun, ?_, ?_, ?_⟩
  · rw [List.length_map]
    exact List.length_take_le top_k _
  · intro h hh
    rcases List.mem_map.mp hh with ⟨rv, hrvtake, rfl⟩
    have hrvelig : rv ∈ db.filterMap
        (fun r => r.embedding.map (fun v => (r, v))) :=
      (sortOrd_perm _ _).mem_iff.mp (List.mem_of_mem_take hrvtake)
    rcases List.mem_filterMap.mp hrvelig with ⟨r, hr, hsome⟩
    rcases Option.map_eq_some'.mp hsome with ⟨v, hv, hpair⟩
    refine ⟨r, hr, v, hv, ?_, ?_, ?_⟩
    · rw [← hpair]
    · rw [← hpair]
    · rw [← hpair]
      show (simOf v qv).key = 1 - distKey v qv
      unfold distKey
      ring
  · rw [List.pairwise_map]
    exact (List.Pairwise.sublist (List.take_sublist _ _) hsorted).imp
      (fun hab => by
        have hle := of_decide_eq_true hab
        unfold distKey at hle
        show (simOf _ qv).key ≤ (simOf _ qv).key
        linarith)

/-- Witness for C8: a store with one embedded row and one NULL row. -/
theorem C8_witness :
    (∀ r ∈ [rowOnes, rowNull], ∀ v : Vec, r.embedding = some v →
      v.length = onesVec.length) ∧
    (∃ hits, search_pgvector genAda oracleOnes [rowOnes, rowNull] "q"
        "text-embedding-ada-002" 3 = .ok hits ∧
      hits.length ≤ 3 ∧
      (∀ h ∈ hits, ∃ r ∈ [rowOnes, rowNull], ∃ v, r.embedding = some v ∧
        h.similarity = simOf v onesVec ∧ h.content = r.content ∧
        h.similarity.key = 1 - distKey v onesVec) ∧
      hits.Pairwise (fun a b => b.similarity.key ≤ a.similarity.key)) :=
  ⟨by
    intro r hr v hv
    rcases List.mem_cons.mp hr with rfl | hr2
    · have hveq : onesVec = v := Option.some.inj hv
      rw [← hveq]
    · rcases List.mem_cons.mp hr2 with rfl | hr3
      · simp [rowNull] at hv
      · simp at hr3,
   C8_pgvector_ranking genAda oracleOnes [rowOnes, rowNull] "q"
     "text-embedding-ada-002" 3 onesVec
     (by simp [get_embedding, genAda, EmbeddingGenerator.mk0, dictFind, oracleOnes])
     (by
       intro r hr v hv
       rcases List.mem_cons.mp hr with rfl | hr2
       · have hveq : onesVec = v := Option.some.inj hv
         rw [← hveq]
       · rcases List.mem_cons.mp hr2 with rfl | hr3
         · simp [rowNull] at hv
         · simp at hr3)⟩
